import Mathlib

/-!
Verification development for the Jira helper module (jira_client.py).

The definitions below are a shallow embedding of the code in
src/jira_client.py.  Python strings are modelled by Lean strings, with the
relevant str methods (strip, lower, startswith, isdigit, replace, in)
re-implemented over character lists so that every definition computes by
kernel reduction.  JSON numbers are modelled as exact rationals (the Python
code accumulates floats; the arithmetic is idealised as exact).  The Jira
server is modelled by the data it returns: a list of successive page
responses for the search loop, a transition list, a field catalogue.
-/

/-! ## Python string methods, embedded over character lists -/

/-- Python str.strip(): drop whitespace from both ends. -/
def pyStrip (s : String) : String :=
  String.mk (((s.data.dropWhile Char.isWhitespace).reverse.dropWhile
    Char.isWhitespace).reverse)

/-- Python str.lower() (ASCII case folding). -/
def pyLower (s : String) : String :=
  String.mk (s.data.map Char.toLower)

/-- Python str.startswith(pre). -/
def pyStartsWith (s pre : String) : Bool :=
  pre.data.isPrefixOf s.data

/-- Python str.isdigit() (ASCII digits; true only on non-empty strings). -/
def pyIsdigit (s : String) : Bool :=
  !s.data.isEmpty && s.data.all Char.isDigit

/-- The double-quote character, written by code point. -/
def quoteChar : Char := Char.ofNat 34

/-- The backslash character, written by code point. -/
def backslashChar : Char := Char.ofNat 92

/-- Helper for sprint.replace: escape every double quote. -/
def escapeQuotesAux : List Char → List Char
  | [] => []
  | c :: cs =>
    if c = quoteChar then backslashChar :: quoteChar :: escapeQuotesAux cs
    else c :: escapeQuotesAux cs

/-- Python sprint.replace(quote, backslash-quote). -/
def pyEscapeQuotes (s : String) : String :=
  String.mk (escapeQuotesAux s.data)

/-- Helper for Python substring containment. -/
def hasSubAux (pat : List Char) : List Char → Bool
  | [] => pat.isEmpty
  | c :: cs => pat.isPrefixOf (c :: cs) || hasSubAux pat cs

/-- Python pat in s (substring containment). -/
def pyContains (s pat : String) : Bool :=
  hasSubAux pat.data s.data

/-! ## Data model for the aggregation (story_points_by_jql)

An issue as consumed by the aggregator: the fields requested are
summary, assignee and the custom story-points field.  The story-points
field value is a JSON value: a number, a string, or null. -/

/-- The custom story-points field value of an issue, as decoded from JSON:
a number, a string, or null/absent. -/
inductive SPField where
  | num (q : ℚ)
  | str (s : String)
  | null
  deriving DecidableEq

/-- The assignee object of an issue.  An absent or empty accountId is
modelled by the empty string (Python treats both as falsy). -/
structure Assignee where
  accountId : String
  displayName : Option String
  emailAddress : Option String
  deriving DecidableEq

/-- An issue as consumed by story_points_by_jql. -/
structure Issue where
  key : Option String
  summary : Option String
  assignee : Option Assignee
  storyPoints : SPField
  deriving DecidableEq

/-- The per-issue echo appended to a rollup's issues list. -/
structure IssueEntry where
  key : Option String
  summary : Option String
  storyPoints : Option ℚ
  deriving DecidableEq

/-- A rollup bucket: running point sum, issue count, unestimated count and
the echoed issues (the shape of the unassigned bucket). -/
structure Rollup where
  storyPoints : ℚ
  issueCount : ℕ
  unestimatedCount : ℕ
  issues : List IssueEntry
  deriving DecidableEq

/-- A member rollup: a rollup plus the identity captured from the first
issue seen for that assignee. -/
structure Member where
  accountId : String
  displayName : Option String
  emailAddress : Option String
  storyPoints : ℚ
  issueCount : ℕ
  unestimatedCount : ℕ
  issues : List IssueEntry
  deriving DecidableEq

/-- isinstance(story_points, (int, float)). -/
def hasEstimate (v : SPField) : Bool :=
  match v with
  | .num _ => true
  | _ => false

/-- float(story_points) if it is numeric, else the 0.0 default. -/
def estimateValue (v : SPField) : ℚ :=
  match v with
  | .num q => q
  | _ => 0

/-- The echoed storyPoints of an issue entry: the original value when
numeric, otherwise None. -/
def echoPoints (v : SPField) : Option ℚ :=
  match v with
  | .num q => some q
  | _ => none

/-- The issue_entry dictionary built for every scanned issue. -/
def mkIssueEntry (i : Issue) : IssueEntry :=
  ⟨i.key, i.summary, echoPoints i.storyPoints⟩

/-- Add one issue to a rollup bucket: bump issueCount, add the coerced
value when estimated, else bump unestimatedCount; append the echo. -/
def addIssueToRollup (r : Rollup) (i : Issue) : Rollup :=
  { storyPoints :=
      if hasEstimate i.storyPoints then r.storyPoints + estimateValue i.storyPoints
      else r.storyPoints
    issueCount := r.issueCount + 1
    unestimatedCount :=
      if hasEstimate i.storyPoints then r.unestimatedCount
      else r.unestimatedCount + 1
    issues := r.issues ++ [mkIssueEntry i] }

/-- Add one issue to a member rollup (same bookkeeping as the bucket). -/
def addIssueToMember (m : Member) (i : Issue) : Member :=
  { m with
    storyPoints :=
      if hasEstimate i.storyPoints then m.storyPoints + estimateValue i.storyPoints
      else m.storyPoints
    issueCount := m.issueCount + 1
    unestimatedCount :=
      if hasEstimate i.storyPoints then m.unestimatedCount
      else m.unestimatedCount + 1
    issues := m.issues ++ [mkIssueEntry i] }

/-- The fresh member created by members.setdefault on first encounter. -/
def newMember (a : Assignee) : Member :=
  ⟨a.accountId, a.displayName, a.emailAddress, 0, 0, 0, []⟩

/-- members.setdefault(account_id, fresh) followed by the updates, on the
insertion-ordered dictionary modelled as a list: update in place when the
accountId is already present, else append a fresh member at the end. -/
def updateMembers (ms : List Member) (a : Assignee) (i : Issue) : List Member :=
  match ms with
  | [] => [addIssueToMember (newMember a) i]
  | m :: rest =>
    if m.accountId = a.accountId then addIssueToMember m i :: rest
    else m :: updateMembers rest a i

/-- The mutable aggregation state of story_points_by_jql. -/
structure AggState where
  members : List Member
  unassigned : Rollup
  totalIssues : ℕ
  deriving DecidableEq

/-- The state before the pagination loop starts. -/
def initState : AggState :=
  ⟨[], ⟨0, 0, 0, []⟩, 0⟩

/-- Per-issue classification and routing: issues with an assignee carrying
a truthy accountId go to that member, all others to the unassigned bucket. -/
def processIssue (st : AggState) (i : Issue) : AggState :=
  match i.assignee with
  | some a =>
    if a.accountId = "" then { st with unassigned := addIssueToRollup st.unassigned i }
    else { st with members := updateMembers st.members a i }
  | none => { st with unassigned := addIssueToRollup st.unassigned i }

/-- One page of the loop body: total_issues += len(issues), then the
for-loop over the page. -/
def processPage (st : AggState) (page : List Issue) : AggState :=
  page.foldl processIssue { st with totalIssues := st.totalIssues + page.length }

/-- One search request issued by the loop: startAt and maxResults params. -/
structure Request where
  startAt : ℕ
  maxResults : ℤ
  deriving DecidableEq

/-- What one run of the pagination loop produces: the final state, the
requests issued (in order), and the issues scanned (in order). -/
structure LoopOut where
  state : AggState
  requests : List Request
  scanned : List Issue
  deriving DecidableEq

/-- The pagination loop of story_points_by_jql.  The server is modelled by
the list of successive page responses; an exhausted list behaves as a
server returning empty pages.  Each iteration with remaining > 0 requests
batch_size = min(remaining, 100) issues at the current offset, folds the
returned page into the state, stops if the page is shorter than requested,
and otherwise advances the offset by the page length (not the requested
size) and decreases the budget by the same amount. -/
def aggLoop (st : AggState) (startAt : ℕ) (remaining : ℤ) :
    List (List Issue) → LoopOut
  | [] =>
    if remaining ≤ 0 then ⟨st, [], []⟩
    else ⟨st, [⟨startAt, min remaining 100⟩], []⟩
  | page :: rest =>
    if remaining ≤ 0 then ⟨st, [], []⟩
    else
      let batchSize := min remaining 100
      let st2 := processPage st page
      if (page.length : ℤ) < batchSize then ⟨st2, [⟨startAt, batchSize⟩], page⟩
      else
        let out := aggLoop st2 (startAt + page.length) (remaining - page.length) rest
        ⟨out.state, ⟨startAt, batchSize⟩ :: out.requests, page ++ out.scanned⟩

/-- The whole pagination phase of story_points_by_jql: start_at = 0,
remaining = max_results, empty starting state. -/
def runAgg (maxResults : ℤ) (resps : List (List Issue)) : LoopOut :=
  aggLoop initState 0 maxResults resps

/-- Descending comparison used for the final sort: a before b when
b's storyPoints are at most a's. -/
def memberGE (a b : Member) : Prop :=
  b.storyPoints ≤ a.storyPoints

instance : DecidableRel memberGE :=
  fun a b => inferInstanceAs (Decidable (b.storyPoints ≤ a.storyPoints))

instance : IsTotal Member memberGE :=
  ⟨fun a b => Or.symm (le_total a.storyPoints b.storyPoints)⟩

instance : IsTrans Member memberGE :=
  ⟨fun _ _ _ hab hbc => le_trans hbc hab⟩

/-- members_list.sort(key storyPoints, reverse).  Python's sort is stable;
a stable sort is extensionally determined by the key order and the input
order, so it is embedded as the stable insertion sort. -/
def sortMembersDesc (l : List Member) : List Member :=
  List.insertionSort memberGE l

/-- The result dictionary of story_points_by_jql. -/
structure AggResult where
  jql : String
  totalIssues : ℕ
  members : List Member
  unassigned : Option Rollup
  deriving DecidableEq

/-- Builds the result: sorted members always present, unassigned included
only when its issueCount or its storyPoints total is truthy. -/
def buildResult (jql : String) (out : LoopOut) : AggResult :=
  { jql := jql
    totalIssues := out.state.totalIssues
    members := sortMembersDesc out.state.members
    unassigned :=
      if out.state.unassigned.issueCount ≠ 0 ∨ out.state.unassigned.storyPoints ≠ 0 then
        some out.state.unassigned
      else none }

/-- story_points_by_jql: rejects empty or whitespace-only JQL (ValueError),
otherwise runs the pagination loop and builds the result.  The story-points
field id only names which JSON field is read; the Issue model carries that
field already extracted, so a resolvable field id is assumed. -/
def story_points_by_jql (jql : String) (maxResults : ℤ)
    (resps : List (List Issue)) : Option AggResult :=
  if pyStrip jql = "" then none
  else some (buildResult jql (runAgg maxResults resps))

/-- The storyPoints of the optional unassigned bucket of a result (0 when
the bucket was not included). -/
def unassignedPoints (res : AggResult) : ℚ :=
  (res.unassigned.map Rollup.storyPoints).getD 0

/-- The issueCount of the optional unassigned bucket of a result (0 when
the bucket was not included). -/
def unassignedCount (res : AggResult) : ℕ :=
  (res.unassigned.map Rollup.issueCount).getD 0

/-! ## story_points_by_sprint: sprint clause synthesis -/

/-- The JQL clause synthesised from a (stripped, non-empty) sprint
identifier: verbatim when it already starts with sprint-equals or
sprint-in (case-insensitively), numeric equality when all digits,
otherwise a quoted name with embedded double quotes escaped. -/
def sprintClauseOf (s : String) : String :=
  let lower := pyLower s
  if pyStartsWith lower "sprint =" || pyStartsWith lower "sprint in" then s
  else if pyIsdigit s then "sprint = " ++ s
  else "sprint = " ++ String.mk [quoteChar] ++ pyEscapeQuotes s ++ String.mk [quoteChar]

/-- The JQL built by story_points_by_sprint before delegating to
story_points_by_jql: None models the ValueError on an empty or
whitespace-only sprint identifier; a supplied project key is appended
only when truthy (Python if project_key). -/
def story_points_by_sprint_jql (sprint : String) (projectKey : Option String) :
    Option String :=
  if pyStrip sprint = "" then none
  else
    let s := pyStrip sprint
    let clause := sprintClauseOf s
    some (match projectKey with
      | some p =>
        if p = "" then clause
        else clause ++ " AND project = " ++ String.mk [quoteChar] ++ p ++ String.mk [quoteChar]
      | none => clause)

/-! ## transition_issue: transition selection -/

/-- An available transition as returned by the server: its id and the name
of its destination status.  toName is none when the to object or its name
key is missing. -/
structure Transition where
  id : Option String
  toName : Option String
  deriving DecidableEq

/-- The comparison of the loop: the destination name (empty-string default)
lowercased must equal the stripped, lowercased target. -/
def transitionMatches (target : String) (t : Transition) : Bool :=
  pyLower (t.toName.getD "") = pyLower (pyStrip target)

/-- The enumeration built for the error message: destination names joined
with a comma, with the Unknown placeholder for a missing name. -/
def availableNames (ts : List Transition) : String :=
  String.intercalate ", " (ts.map (fun t => t.toName.getD "Unknown"))

/-- The outcome of the selection phase of transition_issue. -/
inductive TransitionOutcome where
  | ok (t : Transition)
  | validationError
  | noMatchingTransition (available : String)
  deriving DecidableEq

/-- transition_issue up to the selection decision: validates the two
arguments, then picks the first transition (in server order) whose
destination matches, and otherwise fails listing the available names
(or the none placeholder when the list is empty). -/
def transition_issue (issue_key target : String) (ts : List Transition) :
    TransitionOutcome :=
  if pyStrip issue_key = "" then .validationError
  else if pyStrip target = "" then .validationError
  else
    match ts.find? (transitionMatches target) with
    | some t => .ok t
    | none =>
      .noMatchingTransition
        (if availableNames ts = "" then "none" else availableNames ts)

/-! ## Story-points field id discovery and memoization -/

/-- A field of the field catalogue returned by the server (entries that are
not JSON objects are excluded by the isinstance filter and omitted here). -/
structure CatalogField where
  id : Option String
  name : Option String
  deriving DecidableEq

/-- The candidate filter of _discover_story_points_field: a truthy name
containing the story point phrase case-insensitively. -/
def fieldCandidate (f : CatalogField) : Bool :=
  match f.name with
  | some n => !n.data.isEmpty && pyContains (pyLower n) "story point"
  | none => false

/-- Python truthiness of an optional string. -/
def truthyOpt (s : Option String) : Bool :=
  match s with
  | some v => !v.data.isEmpty
  | none => false

/-- _discover_story_points_field: take the first candidate of the
catalogue; adopt its id only when the id is present and truthy. -/
def discoverStep (fid : Option String) (catalog : List CatalogField) : Option String :=
  match (catalog.filter fieldCandidate).head? with
  | some f =>
    match f.id with
    | some i => if i = "" then fid else some i
    | none => fid
  | none => fid

/-- The per-instance state relevant to field-id resolution:
config.story_points_field_id and the checked flag. -/
structure ClientState where
  fieldId : Option String
  checked : Bool
  deriving DecidableEq

/-- What one call of _ensure_story_points_field_id produces: the state
afterwards, whether the discovery request was issued during the call, and
the returned field id (none models the FieldNotFound RuntimeError). -/
structure EnsureOut where
  state : ClientState
  requested : Bool
  result : Option String
  deriving DecidableEq

/-- _ensure_story_points_field_id: return a truthy configured id at once;
otherwise run discovery only when not yet checked (marking checked), and
fail when the id is still not truthy.  The catalogue argument is what the
server would answer if the discovery request were issued. -/
def ensureFieldId (st : ClientState) (catalog : List CatalogField) : EnsureOut :=
  if truthyOpt st.fieldId then ⟨st, false, st.fieldId⟩
  else
    let st2 : ClientState :=
      if st.checked then st else ⟨discoverStep st.fieldId catalog, true⟩
    ⟨st2, !st.checked, if truthyOpt st2.fieldId then st2.fieldId else none⟩

/-- A lifetime of _ensure_story_points_field_id calls on one client
instance, each observing the state the previous call left. -/
def runEnsures (st : ClientState) : List (List CatalogField) → List EnsureOut
  | [] => []
  | c :: cs =>
    let o := ensureFieldId st c
    o :: runEnsures o.state cs

/-! ## Derived observations used by the statements -/

/-- Sum of the storyPoints of a member list. -/
def memberPointsSum (ms : List Member) : ℚ :=
  (ms.map Member.storyPoints).sum

/-- Sum of the issueCount of a member list. -/
def memberCountSum (ms : List Member) : ℕ :=
  (ms.map Member.issueCount).sum

/-- Total points held by a state: member sums plus the unassigned sum. -/
def statePoints (st : AggState) : ℚ :=
  memberPointsSum st.members + st.unassigned.storyPoints

/-- Total issue count held by a state: member counts plus unassigned. -/
def stateCounts (st : AggState) : ℕ :=
  memberCountSum st.members + st.unassigned.issueCount

/-- The story-point value a scanned issue contributes: its field value when
numeric, 0 otherwise. -/
def issuesValueSum (l : List Issue) : ℚ :=
  (l.map (fun i => estimateValue i.storyPoints)).sum

/-- The rollup part of a member. -/
def memberRoll (m : Member) : Rollup :=
  ⟨m.storyPoints, m.issueCount, m.unestimatedCount, m.issues⟩

/-- Book-keeping coherence of one rollup: issueCount is the number of
echoed issues and unestimatedCount is the number of null-pointed echoes. -/
def goodRollup (r : Rollup) : Prop :=
  r.issueCount = r.issues.length ∧
  r.unestimatedCount = r.issues.countP (fun e => e.storyPoints.isNone)

/-- The page the i-th request of a run is answered with (empty when the
response list is exhausted). -/
def pageAt (resps : List (List Issue)) (i : ℕ) : List Issue :=
  resps.getD i []

/-- One step of the first-encounter order of assignee account ids. -/
def seenStep (ids : List String) (i : Issue) : List String :=
  match i.assignee with
  | some a =>
    if a.accountId = "" then ids
    else if a.accountId ∈ ids then ids else ids ++ [a.accountId]
  | none => ids

/-- Account ids of assigned issues in the order their first issue occurs. -/
def firstSeenIds (l : List Issue) : List String :=
  l.foldl seenStep []

/-! ## Concrete inputs used by the witnesses -/

/-- An issue with no fields set. -/
def dummyIssue : Issue :=
  ⟨none, none, none, SPField.null⟩

/-- A demo assignee. -/
def aliceA : Assignee :=
  ⟨"alice", some "Alice", none⟩

/-- Another demo assignee. -/
def bobA : Assignee :=
  ⟨"bob", some "Bob", none⟩

/-- One demo server page: two assignees, an unassigned issue, a string
value and a null value. -/
def demoPages : List (List Issue) :=
  [[⟨some "K-1", some "one", some aliceA, SPField.num 3⟩,
    ⟨some "K-2", some "two", some bobA, SPField.num 5⟩,
    ⟨some "K-3", some "three", none, SPField.str "8"⟩,
    ⟨some "K-4", some "four", some aliceA, SPField.null⟩]]

/-- The aggregation result on the demo input. -/
def demoRes : AggResult :=
  buildResult "project = X" (runAgg 10 demoPages)

/-- Demo transition list used by the witnesses. -/
def demoTransitions : List Transition :=
  [⟨some "11", some "In Progress"⟩, ⟨some "21", some "Done"⟩]

/-- Demo field catalogues used by the witnesses: an empty catalogue first,
a matching one afterwards. -/
def demoCatalogs : List (List CatalogField) :=
  [[], [⟨some "cf1", some "Story Points"⟩]]

/-! ## Invariant lemmas: point sums -/

theorem ifEstimate_add (x : ℚ) (v : SPField) :
    (if hasEstimate v then x + estimateValue v else x) = x + estimateValue v := by
  cases v <;> simp [hasEstimate, estimateValue]

theorem addIssueToRollup_points (r : Rollup) (i : Issue) :
    (addIssueToRollup r i).storyPoints = r.storyPoints + estimateValue i.storyPoints := by
  simp [addIssueToRollup, ifEstimate_add]

theorem addIssueToMember_points (m : Member) (i : Issue) :
    (addIssueToMember m i).storyPoints = m.storyPoints + estimateValue i.storyPoints := by
  simp [addIssueToMember, ifEstimate_add]

theorem memberPointsSum_cons (m : Member) (l : List Member) :
    memberPointsSum (m :: l) = m.storyPoints + memberPointsSum l := by
  simp [memberPointsSum]

theorem updateMembers_points (ms : List Member) (a : Assignee) (i : Issue) :
    memberPointsSum (updateMembers ms a i)
      = memberPointsSum ms + estimateValue i.storyPoints := by
  induction ms with
  | nil =>
    simp [updateMembers, memberPointsSum, addIssueToMember_points, newMember]
  | cons m rest ih =>
    by_cases h : m.accountId = a.accountId
    · rw [updateMembers, if_pos h, memberPointsSum_cons, addIssueToMember_points,
        memberPointsSum_cons]
      ring
    · rw [updateMembers, if_neg h, memberPointsSum_cons, ih, memberPointsSum_cons]
      ring

theorem processIssue_points (st : AggState) (i : Issue) :
    statePoints (processIssue st i) = statePoints st + estimateValue i.storyPoints := by
  cases h : i.assignee with
  | none =>
    simp [processIssue, h, statePoints, addIssueToRollup_points]
    ring
  | some a =>
    by_cases ha : a.accountId = ""
    · simp [processIssue, h, ha, statePoints, addIssueToRollup_points]
      ring
    · simp [processIssue, h, ha, statePoints, updateMembers_points]
      ring

theorem foldl_processIssue_points (l : List Issue) (st : AggState) :
    statePoints (l.foldl processIssue st) = statePoints st + issuesValueSum l := by
  induction l generalizing st with
  | nil => simp [issuesValueSum]
  | cons i t ih =>
    rw [List.foldl_cons, ih, processIssue_points]
    simp [issuesValueSum, List.map_cons, List.sum_cons]
    ring

theorem processPage_points (st : AggState) (page : List Issue) :
    statePoints (processPage st page) = statePoints st + issuesValueSum page := by
  rw [processPage, foldl_processIssue_points]
  rfl

theorem issuesValueSum_append (l₁ l₂ : List Issue) :
    issuesValueSum (l₁ ++ l₂) = issuesValueSum l₁ + issuesValueSum l₂ := by
  simp [issuesValueSum]

theorem aggLoop_points (resps : List (List Issue)) (st : AggState) (sa : ℕ) (rem : ℤ) :
    statePoints (aggLoop st sa rem resps).state
      = statePoints st + issuesValueSum (aggLoop st sa rem resps).scanned := by
  induction resps generalizing st sa rem with
  | nil =>
    by_cases h : rem ≤ 0 <;> simp [aggLoop, h, issuesValueSum]
  | cons page rest ih =>
    by_cases h : rem ≤ 0
    · simp [aggLoop, h, issuesValueSum]
    · by_cases h2 : (page.length : ℤ) < min rem 100
      · simp [aggLoop, h, h2, processPage_points]
      · simp only [aggLoop, if_neg h, if_neg h2]
        rw [ih, processPage_points, issuesValueSum_append]
        ring

/-! ## Invariant lemmas: issue counts -/

theorem memberCountSum_cons (m : Member) (l : List Member) :
    memberCountSum (m :: l) = m.issueCount + memberCountSum l := by
  simp [memberCountSum]

theorem updateMembers_counts (ms : List Member) (a : Assignee) (i : Issue) :
    memberCountSum (updateMembers ms a i) = memberCountSum ms + 1 := by
  induction ms with
  | nil => simp [updateMembers, memberCountSum, addIssueToMember, newMember]
  | cons m rest ih =>
    by_cases h : m.accountId = a.accountId
    · rw [updateMembers, if_pos h, memberCountSum_cons, memberCountSum_cons]
      simp [addIssueToMember]
      omega
    · rw [updateMembers, if_neg h, memberCountSum_cons, ih, memberCountSum_cons]
      omega

theorem processIssue_counts (st : AggState) (i : Issue) :
    stateCounts (processIssue st i) = stateCounts st + 1 := by
  cases h : i.assignee with
  | none => simp [processIssue, h, stateCounts, addIssueToRollup]; omega
  | some a =>
    by_cases ha : a.accountId = ""
    · simp [processIssue, h, ha, stateCounts, addIssueToRollup]
      omega
    · simp [processIssue, h, ha, stateCounts, updateMembers_counts]
      omega

theorem processIssue_total (st : AggState) (i : Issue) :
    (processIssue st i).totalIssues = st.totalIssues := by
  cases h : i.assignee with
  | none => simp [processIssue, h]
  | some a => by_cases ha : a.accountId = "" <;> simp [processIssue, h, ha]

theorem foldl_processIssue_counts (l : List Issue) (st : AggState) :
    stateCounts (l.foldl processIssue st) = stateCounts st + l.length := by
  induction l generalizing st with
  | nil => simp
  | cons i t ih =>
    rw [List.foldl_cons, ih, processIssue_counts]
    simp
    omega

theorem foldl_processIssue_total (l : List Issue) (st : AggState) :
    (l.foldl processIssue st).totalIssues = st.totalIssues := by
  induction l generalizing st with
  | nil => simp
  | cons i t ih => rw [List.foldl_cons, ih, processIssue_total]

theorem processPage_counts (st : AggState) (page : List Issue) :
    stateCounts (processPage st page) = stateCounts st + page.length := by
  rw [processPage, foldl_processIssue_counts]
  rfl

theorem processPage_total (st : AggState) (page : List Issue) :
    (processPage st page).totalIssues = st.totalIssues + page.length := by
  rw [processPage, foldl_processIssue_total]

theorem aggLoop_counts (resps : List (List Issue)) (st : AggState) (sa : ℕ) (rem : ℤ) :
    stateCounts (aggLoop st sa rem resps).state
      = stateCounts st + (aggLoop st sa rem resps).scanned.length := by
  induction resps generalizing st sa rem with
  | nil => by_cases h : rem ≤ 0 <;> simp [aggLoop, h]
  | cons page rest ih =>
    by_cases h : rem ≤ 0
    · simp [aggLoop, h]
    · by_cases h2 : (page.length : ℤ) < min rem 100
      · simp [aggLoop, h, h2, processPage_counts]
      · simp only [aggLoop, if_neg h, if_neg h2]
        rw [ih, processPage_counts]
        simp
        omega

theorem aggLoop_total (resps : List (List Issue)) (st : AggState) (sa : ℕ) (rem : ℤ) :
    (aggLoop st sa rem resps).state.totalIssues
      = st.totalIssues + (aggLoop st sa rem resps).scanned.length := by
  induction resps generalizing st sa rem with
  | nil => by_cases h : rem ≤ 0 <;> simp [aggLoop, h]
  | cons page rest ih =>
    by_cases h : rem ≤ 0
    · simp [aggLoop, h]
    · by_cases h2 : (page.length : ℤ) < min rem 100
      · simp [aggLoop, h, h2, processPage_total]
      · simp only [aggLoop, if_neg h, if_neg h2]
        rw [ih, processPage_total]
        simp
        omega

/-! ## Result projections -/

theorem spbj_eq_some (jql : String) (mr : ℤ) (resps : List (List Issue))
    (res : AggResult) (h : story_points_by_jql jql mr resps = some res) :
    res = buildResult jql (runAgg mr resps) := by
  unfold story_points_by_jql at h
  by_cases he : pyStrip jql = ""
  · rw [if_pos he] at h
    exact absurd h (by simp)
  · rw [if_neg he] at h
    exact (Option.some.inj h).symm

theorem sortMembersDesc_perm (l : List Member) :
    List.Perm (sortMembersDesc l) l :=
  List.perm_insertionSort memberGE l

theorem memberPointsSum_sorted (l : List Member) :
    memberPointsSum (sortMembersDesc l) = memberPointsSum l :=
  List.Perm.sum_eq ((sortMembersDesc_perm l).map Member.storyPoints)

theorem memberCountSum_sorted (l : List Member) :
    memberCountSum (sortMembersDesc l) = memberCountSum l :=
  List.Perm.sum_eq ((sortMembersDesc_perm l).map Member.issueCount)

theorem buildResult_unassignedPoints (jql : String) (out : LoopOut) :
    unassignedPoints (buildResult jql out) = out.state.unassigned.storyPoints := by
  by_cases h : out.state.unassigned.issueCount ≠ 0 ∨ out.state.unassigned.storyPoints ≠ 0
  · simp [buildResult, unassignedPoints, if_pos h]
  · push_neg at h
    simp [buildResult, unassignedPoints, if_neg, h.2]
    rw [if_pos h.1]
    simp

theorem buildResult_unassignedCount (jql : String) (out : LoopOut) :
    unassignedCount (buildResult jql out) = out.state.unassigned.issueCount := by
  by_cases h : out.state.unassigned.issueCount ≠ 0 ∨ out.state.unassigned.storyPoints ≠ 0
  · simp [buildResult, unassignedCount, if_pos h]
  · push_neg at h
    simp [buildResult, unassignedCount, if_neg, h.1]
    rw [if_pos h.2]
    simp

theorem statePoints_init : statePoints initState = 0 := by
  simp [statePoints, initState, memberPointsSum]

theorem stateCounts_init : stateCounts initState = 0 := by
  simp [stateCounts, initState, memberCountSum]

/-! ## C1 and C2 -/

/-- C1: for every aggregation run of story_points_by_jql, the storyPoints
of all member rollups plus the unassigned storyPoints equal the sum, over
every scanned issue, of its story-points field value when numeric and 0
otherwise. -/
theorem C1_story_points_sum (jql : String) (mr : ℤ) (resps : List (List Issue))
    (res : AggResult) (h : story_points_by_jql jql mr resps = some res) :
    (res.members.map Member.storyPoints).sum + unassignedPoints res
      = issuesValueSum (runAgg mr resps).scanned := by
  rw [spbj_eq_some jql mr resps res h]
  show memberPointsSum (buildResult jql (runAgg mr resps)).members + _ = _
  have hm : (buildResult jql (runAgg mr resps)).members
      = sortMembersDesc (runAgg mr resps).state.members := rfl
  rw [hm, buildResult_unassignedPoints, memberPointsSum_sorted]
  have hp := aggLoop_points resps initState 0 mr
  rw [statePoints_init, zero_add] at hp
  calc memberPointsSum (runAgg mr resps).state.members
        + (runAgg mr resps).state.unassigned.storyPoints
      = statePoints (runAgg mr resps).state := rfl
    _ = issuesValueSum (runAgg mr resps).scanned := hp

theorem C1_story_points_sum_witness :
    story_points_by_jql "project = X" 10 demoPages = some demoRes ∧
    (demoRes.members.map Member.storyPoints).sum + unassignedPoints demoRes
      = issuesValueSum (runAgg 10 demoPages).scanned :=
  ⟨rfl, C1_story_points_sum "project = X" 10 demoPages demoRes rfl⟩

/-- C2: for every aggregation run of story_points_by_jql, the issueCount
of all member rollups plus the unassigned issueCount equals the
totalIssues reported in the result. -/
theorem C2_issue_count_sum (jql : String) (mr : ℤ) (resps : List (List Issue))
    (res : AggResult) (h : story_points_by_jql jql mr resps = some res) :
    (res.members.map Member.issueCount).sum + unassignedCount res
      = res.totalIssues := by
  rw [spbj_eq_some jql mr resps res h]
  show memberCountSum (buildResult jql (runAgg mr resps)).members + _ = _
  have hm : (buildResult jql (runAgg mr resps)).members
      = sortMembersDesc (runAgg mr resps).state.members := rfl
  have ht : (buildResult jql (runAgg mr resps)).totalIssues
      = (runAgg mr resps).state.totalIssues := rfl
  rw [hm, buildResult_unassignedCount, memberCountSum_sorted, ht]
  have hc := aggLoop_counts resps initState 0 mr
  rw [stateCounts_init, zero_add] at hc
  have htot := aggLoop_total resps initState 0 mr
  have hinit : initState.totalIssues = 0 := rfl
  rw [hinit, zero_add] at htot
  calc memberCountSum (runAgg mr resps).state.members
        + (runAgg mr resps).state.unassigned.issueCount
      = stateCounts (runAgg mr resps).state := rfl
    _ = (runAgg mr resps).scanned.length := hc
    _ = (runAgg mr resps).state.totalIssues := htot.symm

theorem C2_issue_count_sum_witness :
    story_points_by_jql "project = X" 10 demoPages = some demoRes ∧
    (demoRes.members.map Member.issueCount).sum + unassignedCount demoRes
      = demoRes.totalIssues :=
  ⟨rfl, C2_issue_count_sum "project = X" 10 demoPages demoRes rfl⟩

/-! ## C9 and C8 -/

/-- C9: with a non-positive cap, story_points_by_jql (on a non-empty JQL)
issues no search request and returns totalIssues 0, no members, and no
unassigned entry. -/
theorem C9_nonpositive_cap (jql : String) (mr : ℤ) (resps : List (List Issue))
    (hj : pyStrip jql ≠ "") (hm : mr ≤ 0) :
    story_points_by_jql jql mr resps
      = some { jql := jql, totalIssues := 0, members := [], unassigned := none } ∧
    (runAgg mr resps).requests = [] := by
  have hloop : aggLoop initState 0 mr resps = ⟨initState, [], []⟩ := by
    cases resps <;> simp [aggLoop, hm]
  constructor
  · unfold story_points_by_jql
    rw [if_neg hj]
    unfold runAgg
    rw [hloop]
    simp [buildResult, initState, sortMembersDesc, List.insertionSort]
  · show (aggLoop initState 0 mr resps).requests = []
    rw [hloop]

theorem C9_nonpositive_cap_witness :
    pyStrip "project = X" ≠ "" ∧ (0 : ℤ) ≤ 0 ∧
    story_points_by_jql "project = X" 0 [[dummyIssue]]
      = some { jql := "project = X", totalIssues := 0, members := [], unassigned := none } ∧
    (runAgg 0 [[dummyIssue]]).requests = [] :=
  ⟨by decide, by decide,
    (C9_nonpositive_cap "project = X" 0 [[dummyIssue]] (by decide) (by decide)).1,
    (C9_nonpositive_cap "project = X" 0 [[dummyIssue]] (by decide) (by decide)).2⟩

/-- C8: every result carries the JQL text and the number of issues
scanned, and contains the unassigned rollup exactly when that rollup
counted an issue or accumulated nonzero points. -/
theorem C8_output_composition (jql : String) (mr : ℤ) (resps : List (List Issue))
    (res : AggResult) (h : story_points_by_jql jql mr resps = some res) :
    res.jql = jql ∧
    res.totalIssues = (runAgg mr resps).scanned.length ∧
    (res.unassigned.isSome ↔
      ((runAgg mr resps).state.unassigned.issueCount ≠ 0 ∨
        (runAgg mr resps).state.unassigned.storyPoints ≠ 0)) ∧
    (∀ u, res.unassigned = some u → u = (runAgg mr resps).state.unassigned) := by
  rw [spbj_eq_some jql mr resps res h]
  refine ⟨rfl, ?_, ?_, ?_⟩
  · show (runAgg mr resps).state.totalIssues = _
    have htot := aggLoop_total resps initState 0 mr
    have hinit : initState.totalIssues = 0 := rfl
    rw [hinit, zero_add] at htot
    exact htot
  · by_cases hc : ((runAgg mr resps).state.unassigned.issueCount ≠ 0 ∨
        (runAgg mr resps).state.unassigned.storyPoints ≠ 0)
    · simp [buildResult, if_pos hc, hc]
    · simp [buildResult, if_neg hc, hc]
  · intro u hu
    by_cases hc : ((runAgg mr resps).state.unassigned.issueCount ≠ 0 ∨
        (runAgg mr resps).state.unassigned.storyPoints ≠ 0)
    · rw [show (buildResult jql (runAgg mr resps)).unassigned
          = some (runAgg mr resps).state.unassigned from by simp [buildResult, if_pos hc]] at hu
      exact (Option.some.inj hu).symm
    · rw [show (buildResult jql (runAgg mr resps)).unassigned = none from by
        simp [buildResult, if_neg hc]] at hu
      exact absurd hu (by simp)

theorem C8_output_composition_witness :
    story_points_by_jql "project = X" 10 demoPages = some demoRes ∧
    demoRes.jql = "project = X" ∧
    demoRes.totalIssues = (runAgg 10 demoPages).scanned.length ∧
    (demoRes.unassigned.isSome ↔
      ((runAgg 10 demoPages).state.unassigned.issueCount ≠ 0 ∨
        (runAgg 10 demoPages).state.unassigned.storyPoints ≠ 0)) :=
  ⟨rfl, (C8_output_composition "project = X" 10 demoPages demoRes rfl).1,
    (C8_output_composition "project = X" 10 demoPages demoRes rfl).2.1,
    (C8_output_composition "project = X" 10 demoPages demoRes rfl).2.2.1⟩

/-! ## C10: per-rollup book-keeping -/

theorem memberRoll_addIssue (m : Member) (i : Issue) :
    memberRoll (addIssueToMember m i) = addIssueToRollup (memberRoll m) i := rfl

theorem goodRollup_add (r : Rollup) (i : Issue) (h : goodRollup r) :
    goodRollup (addIssueToRollup r i) := by
  obtain ⟨hc, hu⟩ := h
  constructor
  · simp [addIssueToRollup, hc]
  · cases hv : i.storyPoints <;>
      simp [addIssueToRollup, hasEstimate, hv, hu, List.countP_append,
        List.countP_cons, mkIssueEntry, echoPoints]

theorem goodRollup_init : goodRollup ⟨0, 0, 0, []⟩ := by
  constructor <;> simp

/-- The state-wide book-keeping invariant. -/
def stateGood (st : AggState) : Prop :=
  (∀ m ∈ st.members, goodRollup (memberRoll m)) ∧ goodRollup st.unassigned

theorem updateMembers_good (ms : List Member) (a : Assignee) (i : Issue)
    (h : ∀ m ∈ ms, goodRollup (memberRoll m)) :
    ∀ m ∈ updateMembers ms a i, goodRollup (memberRoll m) := by
  induction ms with
  | nil =>
    intro m hm
    simp [updateMembers] at hm
    subst hm
    rw [memberRoll_addIssue]
    exact goodRollup_add _ _ (by constructor <;> simp [newMember, memberRoll])
  | cons m0 rest ih =>
    intro m hm
    by_cases he : m0.accountId = a.accountId
    · rw [updateMembers, if_pos he] at hm
      rcases List.mem_cons.mp hm with h1 | h1
      · subst h1
        rw [memberRoll_addIssue]
        exact goodRollup_add _ _ (h m0 (List.mem_cons_self _ _))
      · exact h m (List.mem_cons_of_mem _ h1)
    · rw [updateMembers, if_neg he] at hm
      rcases List.mem_cons.mp hm with h1 | h1
      · subst h1
        exact h m (List.mem_cons_self _ _)
      · exact ih (fun x hx => h x (List.mem_cons_of_mem _ hx)) m h1

theorem processIssue_good (st : AggState) (i : Issue) (h : stateGood st) :
    stateGood (processIssue st i) := by
  obtain ⟨hm, hu⟩ := h
  cases ha : i.assignee with
  | none => exact ⟨by simpa [processIssue, ha] using hm,
      by simpa [processIssue, ha] using goodRollup_add _ i hu⟩
  | some a =>
    by_cases he : a.accountId = ""
    · exact ⟨by simpa [processIssue, ha, he] using hm,
        by simpa [processIssue, ha, he] using goodRollup_add _ i hu⟩
    · refine ⟨?_, by simpa [processIssue, ha, he] using hu⟩
      intro m hmem
      rw [show (processIssue st i).members = updateMembers st.members a i from by
        simp [processIssue, ha, he]] at hmem
      exact updateMembers_good st.members a i hm m hmem

theorem foldl_processIssue_good (l : List Issue) (st : AggState) (h : stateGood st) :
    stateGood (l.foldl processIssue st) := by
  induction l generalizing st with
  | nil => exact h
  | cons i t ih => exact ih _ (processIssue_good st i h)

theorem processPage_good (st : AggState) (page : List Issue) (h : stateGood st) :
    stateGood (processPage st page) :=
  foldl_processIssue_good page _ ⟨h.1, h.2⟩

theorem aggLoop_good (resps : List (List Issue)) (st : AggState) (sa : ℕ) (rem : ℤ)
    (h : stateGood st) : stateGood (aggLoop st sa rem resps).state := by
  induction resps generalizing st sa rem with
  | nil =>
    have he : (aggLoop st sa rem []).state = st := by
      by_cases hr : rem ≤ 0 <;> simp [aggLoop, hr]
    rw [he]
    exact h
  | cons page rest ih =>
    by_cases hr : rem ≤ 0
    · simpa [aggLoop, hr] using h
    · by_cases h2 : (page.length : ℤ) < min rem 100
      · simpa [aggLoop, hr, h2] using processPage_good st page h
      · simp only [aggLoop, if_neg hr, if_neg h2]
        exact ih _ _ _ (processPage_good st page h)

/-- C10: in every rollup of the result, issueCount counts the echoed
issues, and unestimatedCount counts (and is bounded by) the echoes whose
storyPoints is null. -/
theorem C10_rollup_bookkeeping (jql : String) (mr : ℤ) (resps : List (List Issue))
    (res : AggResult) (h : story_points_by_jql jql mr resps = some res) :
    (∀ m ∈ res.members,
      m.issueCount = m.issues.length ∧
      m.unestimatedCount = m.issues.countP (fun e => e.storyPoints.isNone) ∧
      m.unestimatedCount ≤ m.issueCount) ∧
    (∀ u, res.unassigned = some u →
      u.issueCount = u.issues.length ∧
      u.unestimatedCount = u.issues.countP (fun e => e.storyPoints.isNone) ∧
      u.unestimatedCount ≤ u.issueCount) := by
  rw [spbj_eq_some jql mr resps res h]
  have hg : stateGood (runAgg mr resps).state :=
    aggLoop_good resps initState 0 mr ⟨by simp [initState], goodRollup_init⟩
  constructor
  · intro m hm
    have hmem : m ∈ (runAgg mr resps).state.members := by
      have hp : (buildResult jql (runAgg mr resps)).members
          = sortMembersDesc (runAgg mr resps).state.members := rfl
      rw [hp] at hm
      exact (sortMembersDesc_perm _).mem_iff.mp hm
    obtain ⟨hc, hu⟩ := hg.1 m hmem
    simp only [memberRoll] at hc hu
    refine ⟨hc, hu, ?_⟩
    rw [hc, hu]
    exact List.countP_le_length _
  · intro u hu
    have he : u = (runAgg mr resps).state.unassigned := by
      by_cases hc : ((runAgg mr resps).state.unassigned.issueCount ≠ 0 ∨
          (runAgg mr resps).state.unassigned.storyPoints ≠ 0)
      · rw [show (buildResult jql (runAgg mr resps)).unassigned
            = some (runAgg mr resps).state.unassigned from by
            simp [buildResult, if_pos hc]] at hu
        exact (Option.some.inj hu).symm
      · rw [show (buildResult jql (runAgg mr resps)).unassigned = none from by
          simp [buildResult, if_neg hc]] at hu
        exact absurd hu (by simp)
    subst he
    obtain ⟨hc, hcu⟩ := hg.2
    refine ⟨hc, hcu, ?_⟩
    rw [hc, hcu]
    exact List.countP_le_length _

theorem C10_rollup_bookkeeping_witness :
    story_points_by_jql "project = X" 10 demoPages = some demoRes ∧
    (∀ m ∈ demoRes.members,
      m.issueCount = m.issues.length ∧
      m.unestimatedCount = m.issues.countP (fun e => e.storyPoints.isNone) ∧
      m.unestimatedCount ≤ m.issueCount) :=
  ⟨rfl, (C10_rollup_bookkeeping "project = X" 10 demoPages demoRes rfl).1⟩

/-! ## C4: descending sort, stability, discovery order -/

theorem sortMembersDesc_sorted (l : List Member) :
    List.Sorted memberGE (sortMembersDesc l) :=
  List.sorted_insertionSort memberGE l

theorem filter_orderedInsert (q : ℚ) (m : Member) (l : List Member) :
    (List.orderedInsert memberGE m l).filter (fun x => decide (x.storyPoints = q))
      = if m.storyPoints = q
        then m :: l.filter (fun x => decide (x.storyPoints = q))
        else l.filter (fun x => decide (x.storyPoints = q)) := by
  induction l with
  | nil =>
    by_cases hm : m.storyPoints = q <;>
      simp [List.orderedInsert, List.filter, hm]
  | cons b bs ih =>
    by_cases hmb : memberGE m b
    · by_cases hm : m.storyPoints = q <;>
        simp [List.orderedInsert, if_pos hmb, List.filter_cons, hm]
    · have hlt : m.storyPoints < b.storyPoints := lt_of_not_le hmb
      have hbq : m.storyPoints = q → ¬(b.storyPoints = q) := by
        intro hq hb
        rw [hq, hb] at hlt
        exact lt_irrefl q hlt
      by_cases hm : m.storyPoints = q
      · by_cases hb : b.storyPoints = q
        · exact absurd hb (hbq hm)
        · simp [List.orderedInsert, if_neg hmb, List.filter_cons, hb, ih, hm]
      · by_cases hb : b.storyPoints = q <;>
          simp [List.orderedInsert, if_neg hmb, List.filter_cons, hb, ih, hm]

theorem filter_sortMembersDesc (q : ℚ) (l : List Member) :
    (sortMembersDesc l).filter (fun x => decide (x.storyPoints = q))
      = l.filter (fun x => decide (x.storyPoints = q)) := by
  induction l with
  | nil => rfl
  | cons a t ih =>
    show (List.orderedInsert memberGE a (List.insertionSort memberGE t)).filter _ = _
    rw [filter_orderedInsert]
    by_cases h : a.storyPoints = q
    · rw [if_pos h]
      show a :: (sortMembersDesc t).filter _ = _
      rw [ih]
      simp [List.filter_cons, h]
    · rw [if_neg h]
      show (sortMembersDesc t).filter _ = _
      rw [ih]
      simp [List.filter_cons, h]

theorem addIssueToMember_accountId (m : Member) (i : Issue) :
    (addIssueToMember m i).accountId = m.accountId := rfl

theorem updateMembers_ids (ms : List Member) (a : Assignee) (i : Issue) :
    (updateMembers ms a i).map Member.accountId
      = if a.accountId ∈ ms.map Member.accountId
        then ms.map Member.accountId
        else ms.map Member.accountId ++ [a.accountId] := by
  induction ms with
  | nil => simp [updateMembers, addIssueToMember_accountId, newMember]
  | cons m rest ih =>
    by_cases he : m.accountId = a.accountId
    · rw [updateMembers, if_pos he]
      have hmem : a.accountId ∈ (m :: rest).map Member.accountId := by
        simp [he.symm]
      rw [if_pos hmem]
      simp [addIssueToMember_accountId, he]
    · rw [updateMembers, if_neg he]
      by_cases hmem : a.accountId ∈ rest.map Member.accountId
      · have hmem2 : a.accountId ∈ (m :: rest).map Member.accountId := by
          simp [hmem]
        rw [if_pos hmem2]
        simp only [List.map_cons]
        rw [ih, if_pos hmem]
      · have hmem2 : a.accountId ∉ (m :: rest).map Member.accountId := by
          simp only [List.map_cons, List.mem_cons]
          push_neg
          exact ⟨fun hx => he hx.symm, hmem⟩
        rw [if_neg hmem2]
        simp only [List.map_cons]
        rw [ih, if_neg hmem]
        simp

theorem processIssue_ids (st : AggState) (i : Issue) :
    (processIssue st i).members.map Member.accountId
      = seenStep (st.members.map Member.accountId) i := by
  cases ha : i.assignee with
  | none => simp [processIssue, ha, seenStep]
  | some a =>
    by_cases he : a.accountId = ""
    · simp [processIssue, ha, he, seenStep]
    · rw [show (processIssue st i).members = updateMembers st.members a i from by
        simp [processIssue, ha, he]]
      rw [updateMembers_ids]
      simp [seenStep, ha, he]

theorem foldl_processIssue_ids (l : List Issue) (st : AggState) :
    (l.foldl processIssue st).members.map Member.accountId
      = l.foldl seenStep (st.members.map Member.accountId) := by
  induction l generalizing st with
  | nil => rfl
  | cons i t ih => rw [List.foldl_cons, List.foldl_cons, ih, processIssue_ids]

theorem processPage_ids (st : AggState) (page : List Issue) :
    (processPage st page).members.map Member.accountId
      = page.foldl seenStep (st.members.map Member.accountId) := by
  rw [processPage, foldl_processIssue_ids]

theorem aggLoop_ids (resps : List (List Issue)) (st : AggState) (sa : ℕ) (rem : ℤ) :
    (aggLoop st sa rem resps).state.members.map Member.accountId
      = (aggLoop st sa rem resps).scanned.foldl seenStep
          (st.members.map Member.accountId) := by
  induction resps generalizing st sa rem with
  | nil => by_cases h : rem ≤ 0 <;> simp [aggLoop, h]
  | cons page rest ih =>
    by_cases h : rem ≤ 0
    · simp [aggLoop, h]
    · by_cases h2 : (page.length : ℤ) < min rem 100
      · simp [aggLoop, h, h2, processPage_ids]
      · simp only [aggLoop, if_neg h, if_neg h2]
        rw [ih, processPage_ids, List.foldl_append]

/-- C4: the result's members are sorted by storyPoints descending; members
with equal sums keep the order of the accumulation list (stability,
expressed by filter preservation), and the accumulation list is ordered by
first encounter of each accountId during the scan. -/
theorem C4_sorted_stable (jql : String) (mr : ℤ) (resps : List (List Issue))
    (res : AggResult) (h : story_points_by_jql jql mr resps = some res) :
    List.Sorted memberGE res.members ∧
    (∀ q : ℚ, res.members.filter (fun m => decide (m.storyPoints = q))
      = (runAgg mr resps).state.members.filter (fun m => decide (m.storyPoints = q))) ∧
    (runAgg mr resps).state.members.map Member.accountId
      = firstSeenIds (runAgg mr resps).scanned := by
  rw [spbj_eq_some jql mr resps res h]
  have hp : (buildResult jql (runAgg mr resps)).members
      = sortMembersDesc (runAgg mr resps).state.members := rfl
  refine ⟨?_, ?_, ?_⟩
  · rw [hp]
    exact sortMembersDesc_sorted _
  · intro q
    rw [hp]
    exact filter_sortMembersDesc q _
  · have := aggLoop_ids resps initState 0 mr
    simpa [initState, firstSeenIds] using this

theorem C4_sorted_stable_witness :
    story_points_by_jql "project = X" 10 demoPages = some demoRes ∧
    List.Sorted memberGE demoRes.members ∧
    (runAgg 10 demoPages).state.members.map Member.accountId
      = firstSeenIds (runAgg 10 demoPages).scanned :=
  ⟨rfl, (C4_sorted_stable "project = X" 10 demoPages demoRes rfl).1,
    (C4_sorted_stable "project = X" 10 demoPages demoRes rfl).2.2⟩

/-! ## C3: request trace of the pagination loop -/

theorem aggLoop_requests_head (resps : List (List Issue)) (st : AggState)
    (sa : ℕ) (rem : ℤ) :
    (aggLoop st sa rem resps).requests.head?
      = if rem ≤ 0 then none else some ⟨sa, min rem 100⟩ := by
  cases resps with
  | nil => by_cases h : rem ≤ 0 <;> simp [aggLoop, h]
  | cons page rest =>
    by_cases h : rem ≤ 0
    · simp [aggLoop, h]
    · by_cases h2 : (page.length : ℤ) < min rem 100 <;> simp [aggLoop, h, h2]

theorem aggLoop_request_spec (resps : List (List Issue)) (st : AggState)
    (sa : ℕ) (rem : ℤ) (i rs : ℕ) (rm : ℤ)
    (hr : (aggLoop st sa rem resps).requests.get? i = some ⟨rs, rm⟩) :
    sa ≤ rs ∧
    rm = min (rem + sa - rs) 100 ∧
    0 < rem + (sa : ℤ) - rs ∧
    ((aggLoop st sa rem resps).requests.get? (i + 1) = none ↔
      ((pageAt resps i).length : ℤ) < min (rem + sa - rs) 100 ∨
        rem + sa - rs - (pageAt resps i).length ≤ 0) ∧
    (∀ rs2 rm2, (aggLoop st sa rem resps).requests.get? (i + 1) = some ⟨rs2, rm2⟩ →
      rs2 = rs + (pageAt resps i).length) := by
  induction resps generalizing st sa rem i with
  | nil =>
    by_cases h : rem ≤ 0
    · rw [show (aggLoop st sa rem []).requests = [] from by simp [aggLoop, h]] at hr
      simp at hr
    · rw [show (aggLoop st sa rem []).requests = [⟨sa, min rem 100⟩] from by
        simp [aggLoop, h]] at hr ⊢
      cases i with
      | zero =>
        rw [List.get?_cons_zero] at hr
        have hrs : rs = sa ∧ rm = min rem 100 := by
          have := Option.some.inj hr
          exact ⟨congrArg Request.startAt this.symm, congrArg Request.maxResults this.symm⟩
        obtain ⟨h1, h2⟩ := hrs
        subst h1
        subst h2
        refine ⟨le_refl _, by omega, by omega, ?_, ?_⟩
        · simp [pageAt]
          omega
        · intro rs2 rm2 hr2
          simp at hr2
      | succ j =>
        rw [List.get?_cons_succ, List.get?_nil] at hr
        simp at hr
  | cons page rest ih =>
    by_cases h : rem ≤ 0
    · rw [show (aggLoop st sa rem (page :: rest)).requests = [] from by
        simp [aggLoop, h]] at hr
      simp at hr
    · by_cases h2 : (page.length : ℤ) < min rem 100
      · rw [show (aggLoop st sa rem (page :: rest)).requests = [⟨sa, min rem 100⟩] from by
          simp [aggLoop, h, h2]] at hr ⊢
        cases i with
        | zero =>
          rw [List.get?_cons_zero] at hr
          have hrs : rs = sa ∧ rm = min rem 100 := by
            have := Option.some.inj hr
            exact ⟨congrArg Request.startAt this.symm, congrArg Request.maxResults this.symm⟩
          obtain ⟨h1a, h2a⟩ := hrs
          subst h1a
          subst h2a
          refine ⟨le_refl _, by omega, by omega, ?_, ?_⟩
          · simp [pageAt]
            omega
          · intro rs2 rm2 hr2
            simp at hr2
        | succ j =>
          rw [List.get?_cons_succ, List.get?_nil] at hr
          simp at hr
      · have hreq : (aggLoop st sa rem (page :: rest)).requests
            = ⟨sa, min rem 100⟩ ::
              (aggLoop (processPage st page) (sa + page.length)
                (rem - page.length) rest).requests := by
          simp [aggLoop, h, h2]
        rw [hreq] at hr ⊢
        cases i with
        | zero =>
          rw [List.get?_cons_zero] at hr
          have hrs : rs = sa ∧ rm = min rem 100 := by
            have := Option.some.inj hr
            exact ⟨congrArg Request.startAt this.symm, congrArg Request.maxResults this.symm⟩
          obtain ⟨h1a, h2a⟩ := hrs
          have hhead := aggLoop_requests_head rest (processPage st page)
            (sa + page.length) (rem - page.length)
          refine ⟨by omega, by omega, by omega, ?_, ?_⟩
          · rw [List.get?_cons_succ]
            rw [show (aggLoop (processPage st page) (sa + page.length)
                (rem - page.length) rest).requests.get? 0
              = (aggLoop (processPage st page) (sa + page.length)
                (rem - page.length) rest).requests.head? from List.get?_zero _]
            rw [hhead]
            by_cases hc : rem - page.length ≤ 0
            · rw [if_pos hc]
              simp [pageAt]
              omega
            · rw [if_neg hc]
              simp [pageAt]
              omega
          · intro rs2 rm2 hr2
            rw [List.get?_cons_succ] at hr2
            rw [show (aggLoop (processPage st page) (sa + page.length)
                (rem - page.length) rest).requests.get? 0
              = (aggLoop (processPage st page) (sa + page.length)
                (rem - page.length) rest).requests.head? from List.get?_zero _] at hr2
            rw [hhead] at hr2
            by_cases hc : rem - page.length ≤ 0
            · rw [if_pos hc] at hr2
              simp at hr2
            · rw [if_neg hc] at hr2
              have heq := Option.some.inj hr2
              have hstart2 : sa + page.length = rs2 := congrArg Request.startAt heq
              simp only [pageAt, List.getD_cons_zero]
              omega
        | succ j =>
          rw [List.get?_cons_succ] at hr
          obtain ⟨ih1, ih2, ih3, ih4, ih5⟩ :=
            ih (processPage st page) (sa + page.length) (rem - page.length) j hr
          have hpage : pageAt (page :: rest) (j + 1) = pageAt rest j := by
            simp [pageAt]
          refine ⟨by omega, by omega, by omega, ?_, ?_⟩
          · rw [List.get?_cons_succ, hpage]
            constructor
            · intro hn
              have := ih4.mp hn
              omega
            · intro hd
              apply ih4.mpr
              omega
          · intro rs2 rm2 hr2
            rw [List.get?_cons_succ] at hr2
            rw [hpage]
            exact ih5 rs2 rm2 hr2

/-- C3: every request asks for min(remaining budget, 100) issues (the
remaining budget being the cap minus the offset already consumed); the
next offset is the previous one plus the number of issues the server
actually returned; the loop stops after a request exactly when its page
is shorter than requested or the budget is exhausted; and the two
concrete scenarios: cap 150 with pages 100/50 issues exactly the requests
(0,100),(100,50); cap 250 with pages 100/100/100 issues three requests,
the third asking for 50. -/
theorem C3_pagination (mr : ℤ) (resps : List (List Issue)) :
    ((0 : ℤ) < mr → (runAgg mr resps).requests.head? = some ⟨0, min mr 100⟩) ∧
    (∀ i (r : Request), (runAgg mr resps).requests.get? i = some r →
      r.maxResults = min (mr - r.startAt) 100 ∧
      0 < mr - (r.startAt : ℤ) ∧
      ((runAgg mr resps).requests.get? (i + 1) = none ↔
        ((pageAt resps i).length : ℤ) < r.maxResults ∨
          mr - r.startAt - (pageAt resps i).length ≤ 0) ∧
      (∀ r2 : Request, (runAgg mr resps).requests.get? (i + 1) = some r2 →
        r2.startAt = r.startAt + (pageAt resps i).length)) ∧
    (runAgg 150 [List.replicate 100 dummyIssue, List.replicate 50 dummyIssue]).requests
      = [⟨0, 100⟩, ⟨100, 50⟩] ∧
    (runAgg 250 [List.replicate 100 dummyIssue, List.replicate 100 dummyIssue,
      List.replicate 100 dummyIssue]).requests
      = [⟨0, 100⟩, ⟨100, 100⟩, ⟨200, 50⟩] := by
  refine ⟨?_, ?_, by decide, by decide⟩
  · intro hmr
    rw [show (runAgg mr resps).requests.head?
        = (aggLoop initState 0 mr resps).requests.head? from rfl]
    rw [aggLoop_requests_head]
    rw [if_neg (by omega)]
  · intro i r hr
    have hr2 : (aggLoop initState 0 mr resps).requests.get? i
        = some ⟨r.startAt, r.maxResults⟩ := hr
    obtain ⟨hs1, hs2, hs3, hs4, hs5⟩ :=
      aggLoop_request_spec resps initState 0 mr i r.startAt r.maxResults hr2
    refine ⟨by omega, by omega, ?_, ?_⟩
    · rw [show (runAgg mr resps).requests.get? (i + 1)
          = (aggLoop initState 0 mr resps).requests.get? (i + 1) from rfl]
      rw [hs4]
      constructor
      · intro hd
        omega
      · intro hd
        omega
    · intro r2 hg
      have hg2 : (aggLoop initState 0 mr resps).requests.get? (i + 1)
          = some ⟨r2.startAt, r2.maxResults⟩ := hg
      exact hs5 r2.startAt r2.maxResults hg2

theorem C3_pagination_witness :
    (0 : ℤ) < 150 ∧
    (runAgg 150 [List.replicate 100 dummyIssue, List.replicate 50 dummyIssue]).requests.head?
      = some ⟨0, min 150 100⟩ :=
  ⟨by decide,
    (C3_pagination 150 [List.replicate 100 dummyIssue, List.replicate 50 dummyIssue]).1
      (by decide)⟩

/-! ## C5: sprint clause synthesis -/

/-- C5: on a non-empty sprint identifier, the synthesised clause is the
trimmed identifier verbatim when it starts with sprint-equals or
sprint-in case-insensitively, the unquoted numeric form when all digits,
and the quoted form with embedded quotes escaped otherwise; a truthy
project key appends the project filter.  The spec's four examples are
included. -/
theorem C5_sprint_clause :
    (∀ s : String, pyStrip s ≠ "" →
      (pyStartsWith (pyLower (pyStrip s)) "sprint =" ||
        pyStartsWith (pyLower (pyStrip s)) "sprint in") = true →
      story_points_by_sprint_jql s none = some (pyStrip s)) ∧
    (∀ s : String, pyStrip s ≠ "" →
      (pyStartsWith (pyLower (pyStrip s)) "sprint =" ||
        pyStartsWith (pyLower (pyStrip s)) "sprint in") = false →
      pyIsdigit (pyStrip s) = true →
      story_points_by_sprint_jql s none = some ("sprint = " ++ pyStrip s)) ∧
    (∀ s : String, pyStrip s ≠ "" →
      (pyStartsWith (pyLower (pyStrip s)) "sprint =" ||
        pyStartsWith (pyLower (pyStrip s)) "sprint in") = false →
      pyIsdigit (pyStrip s) = false →
      story_points_by_sprint_jql s none
        = some ("sprint = " ++ String.mk [quoteChar] ++ pyEscapeQuotes (pyStrip s)
            ++ String.mk [quoteChar])) ∧
    (∀ s p : String, pyStrip s ≠ "" → p ≠ "" →
      story_points_by_sprint_jql s (some p)
        = some (sprintClauseOf (pyStrip s) ++ " AND project = "
            ++ String.mk [quoteChar] ++ p ++ String.mk [quoteChar])) ∧
    story_points_by_sprint_jql "45" none = some "sprint = 45" ∧
    story_points_by_sprint_jql "Sprint 1" none = some "sprint = \"Sprint 1\"" ∧
    story_points_by_sprint_jql "sprint in openSprints()" none
      = some "sprint in openSprints()" ∧
    story_points_by_sprint_jql "SPRINT = 7" none = some "SPRINT = 7" ∧
    story_points_by_sprint_jql "Sprint \"Q3\"" none
      = some "sprint = \"Sprint \\\"Q3\\\"\"" ∧
    story_points_by_sprint_jql "45" (some "PROJ")
      = some "sprint = 45 AND project = \"PROJ\"" := by
  refine ⟨?_, ?_, ?_, ?_, by decide, by decide, by decide, by decide, by decide, by decide⟩
  · intro s hs hpre
    rw [story_points_by_sprint_jql, if_neg hs]
    show some (sprintClauseOf (pyStrip s)) = some (pyStrip s)
    rw [show sprintClauseOf (pyStrip s) = pyStrip s from by
      rw [sprintClauseOf]
      rw [if_pos hpre]]
  · intro s hs hpre hdig
    rw [story_points_by_sprint_jql, if_neg hs]
    show some (sprintClauseOf (pyStrip s)) = some ("sprint = " ++ pyStrip s)
    rw [show sprintClauseOf (pyStrip s) = "sprint = " ++ pyStrip s from by
      rw [sprintClauseOf]
      rw [if_neg (by simp [hpre]), if_pos hdig]]
  · intro s hs hpre hdig
    rw [story_points_by_sprint_jql, if_neg hs]
    show some (sprintClauseOf (pyStrip s)) = _
    rw [show sprintClauseOf (pyStrip s)
        = "sprint = " ++ String.mk [quoteChar] ++ pyEscapeQuotes (pyStrip s)
            ++ String.mk [quoteChar] from by
      rw [sprintClauseOf]
      rw [if_neg (by simp [hpre]), if_neg (by simp [hdig])]]
  · intro s p hs hp
    rw [story_points_by_sprint_jql, if_neg hs]
    show some (if p = "" then sprintClauseOf (pyStrip s)
      else sprintClauseOf (pyStrip s) ++ " AND project = "
        ++ String.mk [quoteChar] ++ p ++ String.mk [quoteChar]) = _
    rw [if_neg hp]

theorem C5_sprint_clause_witness :
    pyStrip "Sprint 9" ≠ "" ∧ "BOARD" ≠ "" ∧
    story_points_by_sprint_jql "Sprint 9" (some "BOARD")
      = some (sprintClauseOf (pyStrip "Sprint 9") ++ " AND project = "
          ++ String.mk [quoteChar] ++ "BOARD" ++ String.mk [quoteChar]) :=
  ⟨by decide, by decide,
    C5_sprint_clause.2.2.2.1 "Sprint 9" "BOARD" (by decide) (by decide)⟩

/-! ## C6: transition selection -/

theorem find?_first_iff {α : Type} (p : α → Bool) (l : List α) (x : α) :
    l.find? p = some x ↔
      ∃ i, l.get? i = some x ∧ p x = true ∧
        ∀ j y, j < i → l.get? j = some y → p y = false := by
  induction l with
  | nil =>
    simp
  | cons a t ih =>
    by_cases hpa : p a = true
    · rw [List.find?_cons_of_pos _ hpa]
      constructor
      · intro hx
        have hax : a = x := Option.some.inj hx
        exact ⟨0, by rw [List.get?_cons_zero, hax], by rw [← hax]; exact hpa,
          fun j y hj _ => absurd hj (Nat.not_lt_zero j)⟩
      · rintro ⟨i, hi, hpx, hmin⟩
        cases i with
        | zero =>
          rw [List.get?_cons_zero] at hi
          rw [Option.some.inj hi]
        | succ j =>
          have := hmin 0 a (Nat.succ_pos j) (List.get?_cons_zero)
          rw [hpa] at this
          exact absurd this (by simp)
    · have hpa2 : p a = false := by
        cases hb : p a
        · rfl
        · exact absurd hb hpa
      rw [List.find?_cons_of_neg _ hpa]
      rw [ih]
      constructor
      · rintro ⟨i, hi, hpx, hmin⟩
        refine ⟨i + 1, by rw [List.get?_cons_succ]; exact hi, hpx, ?_⟩
        intro j y hj hy
        cases j with
        | zero =>
          rw [List.get?_cons_zero] at hy
          rw [← Option.some.inj hy]
          exact hpa2
        | succ k =>
          rw [List.get?_cons_succ] at hy
          exact hmin k y (Nat.lt_of_succ_lt_succ hj) hy
      · rintro ⟨i, hi, hpx, hmin⟩
        cases i with
        | zero =>
          rw [List.get?_cons_zero] at hi
          rw [← Option.some.inj hi] at hpx
          exact absurd hpx (by simp [hpa2])
        | succ j =>
          rw [List.get?_cons_succ] at hi
          refine ⟨j, hi, hpx, ?_⟩
          intro k y hk hy
          exact hmin (k + 1) y (Nat.succ_lt_succ hk) (by rw [List.get?_cons_succ]; exact hy)

/-- C6: with valid arguments, transition_issue returns ok t exactly when t
is the first transition in server order whose destination name matches the
target under the trimmed, case-insensitive comparison; and it fails with
noMatchingTransition carrying the joined destination names (or the none
placeholder) exactly when no transition matches. -/
theorem C6_transition_selection (key target : String) (ts : List Transition)
    (hk : pyStrip key ≠ "") (ht : pyStrip target ≠ "") :
    (∀ t : Transition, transition_issue key target ts = .ok t ↔
      ∃ i, ts.get? i = some t ∧ transitionMatches target t = true ∧
        ∀ j t2, j < i → ts.get? j = some t2 → transitionMatches target t2 = false) ∧
    (transition_issue key target ts
        = .noMatchingTransition
            (if availableNames ts = "" then "none" else availableNames ts) ↔
      ∀ t ∈ ts, transitionMatches target t = false) := by
  have htr : transition_issue key target ts
      = (match ts.find? (transitionMatches target) with
        | some t => .ok t
        | none => .noMatchingTransition
            (if availableNames ts = "" then "none" else availableNames ts)) := by
    rw [transition_issue, if_neg hk, if_neg ht]
  constructor
  · intro t
    rw [htr]
    cases hfind : ts.find? (transitionMatches target) with
    | some t0 =>
      constructor
      · intro hok
        have : t0 = t := by
          have := hok
          simp at this
          exact this
        rw [← this]
        exact (find?_first_iff (transitionMatches target) ts t0).mp hfind
      · intro hex
        have : ts.find? (transitionMatches target) = some t :=
          (find?_first_iff (transitionMatches target) ts t).mpr hex
        rw [hfind] at this
        simp at this
        rw [this]
    | none =>
      constructor
      · intro hok
        exact absurd hok (by simp)
      · intro hex
        have : ts.find? (transitionMatches target) = some t :=
          (find?_first_iff (transitionMatches target) ts t).mpr hex
        rw [hfind] at this
        exact absurd this (by simp)
  · rw [htr]
    cases hfind : ts.find? (transitionMatches target) with
    | some t0 =>
      constructor
      · intro hok
        exact absurd hok (by simp)
      · intro hall
        have hmem := List.mem_of_find?_eq_some hfind
        have hp := List.find?_some hfind
        rw [hall t0 hmem] at hp
        exact absurd hp (by simp)
    | none =>
      constructor
      · intro _
        intro t htmem
        have := List.find?_eq_none.mp hfind t htmem
        cases hb : transitionMatches target t
        · rfl
        · exact absurd hb this
      · intro _
        rfl

theorem C6_transition_selection_witness :
    ∃ i, demoTransitions.get? i = some ⟨some "21", some "Done"⟩ ∧
      transitionMatches "done" ⟨some "21", some "Done"⟩ = true ∧
      ∀ j t2, j < i → demoTransitions.get? j = some t2 →
        transitionMatches "done" t2 = false :=
  ((C6_transition_selection "SCRUM-1" "done" demoTransitions (by decide) (by decide)).1
    ⟨some "21", some "Done"⟩).mp (by decide)

/-! ## C7: field discovery memoization -/

/-- After any call the instance holds a truthy field id or is marked
checked; either way no later call can issue the discovery request. -/
def ensureInv (st : ClientState) : Prop :=
  truthyOpt st.fieldId = true ∨ st.checked = true

theorem ensureFieldId_inv (st : ClientState) (c : List CatalogField) :
    ensureInv (ensureFieldId st c).state := by
  by_cases hf : truthyOpt st.fieldId = true
  · left
    simp [ensureFieldId, hf]
  · have hf2 : truthyOpt st.fieldId = false := by
      cases hb : truthyOpt st.fieldId
      · rfl
      · exact absurd hb hf
    by_cases hc : st.checked = true
    · right
      simp [ensureFieldId, hf2, hc]
    · right
      have hc2 : st.checked = false := by
        cases hb : st.checked
        · rfl
        · exact absurd hb hc
      simp [ensureFieldId, hf2, hc2]

theorem ensureFieldId_steady (st : ClientState) (c : List CatalogField)
    (h : ensureInv st) :
    (ensureFieldId st c).requested = false ∧ (ensureFieldId st c).state = st ∧
    (ensureFieldId st c).result
      = (if truthyOpt st.fieldId then st.fieldId else none) := by
  by_cases hf : truthyOpt st.fieldId = true
  · simp [ensureFieldId, hf]
  · have hf2 : truthyOpt st.fieldId = false := by
      cases hb : truthyOpt st.fieldId
      · rfl
      · exact absurd hb hf
    have hc : st.checked = true := by
      rcases h with h1 | h1
      · exact absurd h1 hf
      · exact h1
    simp [ensureFieldId, hf2, hc]

theorem runEnsures_steady (cats : List (List CatalogField)) (st : ClientState)
    (h : ensureInv st) :
    ∀ o ∈ runEnsures st cats, o.requested = false ∧ o.state = st ∧
      o.result = (if truthyOpt st.fieldId then st.fieldId else none) := by
  induction cats with
  | nil =>
    intro o ho
    simp [runEnsures] at ho
  | cons c cs ih =>
    intro o ho
    obtain ⟨hr, hs, hres⟩ := ensureFieldId_steady st c h
    simp only [runEnsures] at ho
    rcases List.mem_cons.mp ho with h1 | h1
    · subst h1
      exact ⟨hr, hs, hres⟩
    · rw [hs] at h1
      exact ih o h1

/-- C7: on a client without a configured field id, the discovery request
happens only in the first call; the total number of discovery requests of
a lifetime is at most one; once the first call failed with FieldNotFound,
every call of the lifetime fails the same way; and a truthy configured id
suppresses discovery entirely. -/
theorem C7_discovery_memoized :
    (∀ cats : List (List CatalogField),
      ∀ o ∈ (runEnsures ⟨none, false⟩ cats).drop 1, o.requested = false) ∧
    (∀ cats : List (List CatalogField),
      (runEnsures ⟨none, false⟩ cats).countP (fun o => o.requested) ≤ 1) ∧
    (∀ (c : List CatalogField) (cs : List (List CatalogField)),
      (ensureFieldId ⟨none, false⟩ c).result = none →
      ∀ o ∈ runEnsures ⟨none, false⟩ (c :: cs), o.result = none) ∧
    (∀ (fid : String) (cats : List (List CatalogField)), fid ≠ "" →
      ∀ o ∈ runEnsures ⟨some fid, false⟩ cats,
        o.requested = false ∧ o.result = some fid) := by
  have hstep : ∀ c : List CatalogField,
      ensureFieldId ⟨none, false⟩ c
        = ⟨⟨discoverStep none c, true⟩, true,
            if truthyOpt (discoverStep none c) then discoverStep none c else none⟩ := by
    intro c
    simp [ensureFieldId, truthyOpt]
  refine ⟨?_, ?_, ?_, ?_⟩
  · intro cats o ho
    cases cats with
    | nil => simp [runEnsures] at ho
    | cons c cs =>
      simp only [runEnsures, List.drop_succ_cons, List.drop_zero] at ho
      exact (runEnsures_steady cs (ensureFieldId ⟨none, false⟩ c).state
        (ensureFieldId_inv _ c) o ho).1
  · intro cats
    cases cats with
    | nil => simp [runEnsures]
    | cons c cs =>
      simp only [runEnsures, List.countP_cons]
      have hz : (runEnsures (ensureFieldId ⟨none, false⟩ c).state cs).countP
          (fun o => o.requested) = 0 := by
        rw [List.countP_eq_zero]
        intro o ho
        rw [(runEnsures_steady cs (ensureFieldId ⟨none, false⟩ c).state
          (ensureFieldId_inv _ c) o ho).1]
        simp
      rw [hz]
      by_cases hb : (ensureFieldId ⟨none, false⟩ c).requested = true <;> simp [hb]
  · intro c cs hres o ho
    have hd : truthyOpt (discoverStep none c) = false := by
      cases hb : truthyOpt (discoverStep none c)
      · rfl
      · rw [hstep c] at hres
        simp only [hb, if_pos] at hres
        rw [hres] at hb
        simp [truthyOpt] at hb
    simp only [runEnsures] at ho
    rcases List.mem_cons.mp ho with h1 | h1
    · subst h1
      exact hres
    · have hinv : ensureInv (ensureFieldId ⟨none, false⟩ c).state :=
        ensureFieldId_inv _ c
      have hsteady := runEnsures_steady cs _ hinv o h1
      rw [hsteady.2.2]
      rw [hstep c]
      simp [hd]
  · intro fid cats hfid o ho
    have ht : truthyOpt (some fid) = true := by
      cases fid with
      | mk d =>
        cases d with
        | nil => exact absurd rfl hfid
        | cons x xs => rfl
    have hsteady := runEnsures_steady cats ⟨some fid, false⟩ (Or.inl ht) o ho
    refine ⟨hsteady.1, ?_⟩
    rw [hsteady.2.2]
    simp [ht]

theorem C7_discovery_memoized_witness :
    ((runEnsures ⟨none, false⟩ demoCatalogs).getD 1 ⟨⟨none, false⟩, false, none⟩).requested
      = false ∧
    ((runEnsures ⟨none, false⟩ demoCatalogs).getD 1 ⟨⟨none, false⟩, false, none⟩).result
      = none :=
  ⟨C7_discovery_memoized.1 demoCatalogs _ (by decide),
    C7_discovery_memoized.2.2.1 [] [[⟨some "cf1", some "Story Points"⟩]] (by decide) _
      (by decide)⟩
